import Mathlib

/-!
Verification of the learn-vm repository (Eva bytecode compiler and VM).

The development shallowly embeds the data model and the operations of the
source files under src/ and proves or refutes the frozen claims about them.
Machine doubles are modelled as rationals: every finite IEEE-754 double is a
rational number, and the verified operations on literals (constant-pool store
and load) are exact. Heap strings are modelled by their contents. The file
src/bytecode/OpCode.h is not part of the repository; where opcode byte values
are needed they are modelled from the spec (section 4.2.2 fixes the opcode
names and operand widths but not the byte values, so an arbitrary injective
enumeration is used; no claim depends on the concrete values).
-/

/-- Tagged value (struct EvaValue in src/src/vm/EvaValue.h). The object
variants that the claims touch are strings (modelled by content), code
objects and compile-time functions (modelled by an identifier, since the
constant-pool claims only need to tell them apart from strings). -/
inductive EvaValue where
  | num (n : ℚ)
  | boolean (b : Bool)
  | str (s : String)
  | codeRef (id : Nat)
  | fnRef (id : Nat)
deriving Repr, DecidableEq

/-- Tester IS_STRING of EvaValue.h (the macro chain IS_OBJECT_TYPE relies on
an IS_OBJECT macro whose defining line carries the name IS_NUMBER, a naming
slip read through here: its body is the ObjectType test). -/
def EvaValue.isString : EvaValue → Bool
  | .str _ => true
  | _ => false

/-- Accessor AS_CPPSTRING restricted to string values; the empty string
stands for the undefined read on a non-string payload (never exercised:
every use below is guarded by isString). -/
def EvaValue.strVal : EvaValue → String
  | .str s => s
  | _ => ""

/-- Macro ALLOC_CONST of src/src/compiler/EvaCompiler.h (lines 31-42) as
written. The macro receives tester, converter and allocator parameters but
its body ignores all three: the scan skips every non-string constant,
compares the searched value only against string contents, and on a miss
always appends an ALLOC_STRING constant. On a hit it makes the enclosing
function return the fixed index 1. For the numeric and boolean
instantiations the C++ comparison AS_CPPSTRING(c) == value and the
construction StringObject(value) do not type-check; the embedding passes the
value already rendered to a string, which is exactly what the macro text
does in its only well-typed (string) instantiation. The first component is
the index the enclosing xxxConstIdx function returns: 1 on a hit, otherwise
constants.size() - 1 after the append. -/
def allocConst (pool : List EvaValue) (s : String) : Nat × List EvaValue :=
  if pool.any fun c => c.isString && c.strVal == s then
    (1, pool)
  else
    ((pool ++ [EvaValue.str s]).length - 1, pool ++ [EvaValue.str s])

/-- Function numericConstIdx (EvaCompiler.h lines 685-688) as written: it
expands ALLOC_CONST with the literal value, so the stored constant is a
string rendering of the number, not a NUMBER value. The rendering function
is a parameter because the ill-typed C++ fixes no particular one. -/
def numericConstIdx (render : ℚ → String) (pool : List EvaValue) (v : ℚ) :
    Nat × List EvaValue :=
  allocConst pool (render v)

/-- Function stringConstIdx (EvaCompiler.h lines 693-697). -/
def stringConstIdx (pool : List EvaValue) (s : String) :
    Nat × List EvaValue :=
  allocConst pool s

/-- Function booleanConstIdx (EvaCompiler.h lines 702-705) as written, with
the boolean rendered to a string exactly as in numericConstIdx. -/
def booleanConstIdx (render : Bool → String) (pool : List EvaValue)
    (b : Bool) : Nat × List EvaValue :=
  allocConst pool (render b)

/-- Method CodeObject::addConst (EvaValue.h lines 277-279): plain append,
used by compileFunction for inner code objects and compile-time functions. -/
def addConst (pool : List EvaValue) (v : EvaValue) : List EvaValue :=
  pool ++ [v]

/-- Constant-pool building steps of one CodeObject: the three xxxConstIdx
entry points (with the value already rendered for the scan, see allocConst)
and the direct addConst appends of inner code objects and compile-time
functions performed by compileFunction. -/
inductive PoolOp where
  | strConst (s : String)
  | numConst (rendered : String)
  | boolConst (rendered : String)
  | codeConst (id : Nat)
  | fnConst (id : Nat)
deriving Repr, DecidableEq

/-- Application of one pool-building step. -/
def applyPoolOp (pool : List EvaValue) : PoolOp → List EvaValue
  | .strConst s => (allocConst pool s).2
  | .numConst s => (allocConst pool s).2
  | .boolConst s => (allocConst pool s).2
  | .codeConst i => addConst pool (.codeRef i)
  | .fnConst i => addConst pool (.fnRef i)

/-- Constant pool reached from the empty pool of a fresh CodeObject by a
sequence of building steps. -/
def buildPool (ops : List PoolOp) : List EvaValue :=
  ops.foldl applyPoolOp []

/-- Contents of the string constants of a pool. -/
def poolStrings (pool : List EvaValue) : List String :=
  (pool.filter EvaValue.isString).map EvaValue.strVal

/-- Claim C8 key step: appending through allocConst never duplicates a
string content, and every other pool operation adds no string at all. -/
theorem poolStrings_applyPoolOp_nodup (pool : List EvaValue) (op : PoolOp)
    (h : (poolStrings pool).Nodup) :
    (poolStrings (applyPoolOp pool op)).Nodup := by
  have key : ∀ s : String, (poolStrings (allocConst pool s).2).Nodup := by
    intro s
    by_cases hmem : (pool.any fun c => c.isString && c.strVal == s) = true
    · simpa [allocConst, hmem] using h
    · have h2 : (allocConst pool s).2 = pool ++ [EvaValue.str s] := by
        simp [allocConst, hmem]
      have hnot : s ∉ poolStrings pool := by
        intro hcon
        apply hmem
        simp only [poolStrings, List.mem_map, List.mem_filter] at hcon
        obtain ⟨c, ⟨hc, hcs⟩, hval⟩ := hcon
        exact List.any_eq_true.mpr ⟨c, hc, by simp [hcs, hval]⟩
      have heq : poolStrings (pool ++ [EvaValue.str s])
          = poolStrings pool ++ [s] := by
        simp [poolStrings, EvaValue.isString, EvaValue.strVal]
      rw [h2, heq]
      simpa [List.nodup_append] using ⟨h, hnot⟩
  cases op with
  | strConst s => exact key s
  | numConst s => exact key s
  | boolConst s => exact key s
  | codeConst i =>
      simpa [applyPoolOp, addConst, poolStrings, EvaValue.isString] using h
  | fnConst i =>
      simpa [applyPoolOp, addConst, poolStrings, EvaValue.isString] using h

/-- Helper for C8: the invariant holds of every reachable pool. -/
theorem poolStrings_buildPool_nodup (ops : List PoolOp) :
    (poolStrings (buildPool ops)).Nodup := by
  suffices h : ∀ (ops : List PoolOp) (pool : List EvaValue),
      (poolStrings pool).Nodup →
      (poolStrings (ops.foldl applyPoolOp pool)).Nodup by
    exact h ops [] (by simp [poolStrings])
  intro ops
  induction ops with
  | nil => intro pool h; simpa using h
  | cons op rest ih =>
      intro pool h
      exact ih (applyPoolOp pool op) (poolStrings_applyPoolOp_nodup pool op h)

/-- Claim C8 (confirmed). Within one Code object, no two constants are
string values with equal content: every pool reachable by the constant
insertion operations of the compiler has pairwise distinct string-constant
contents, and inserting a string constant whose content already occurs in
the pool leaves the pool unchanged (the dedup scan of ALLOC_CONST returns
before the append). -/
theorem constant_pool_string_uniqueness :
    (∀ ops : List PoolOp, (poolStrings (buildPool ops)).Nodup) ∧
    (∀ (pool : List EvaValue) (s : String),
      s ∈ poolStrings pool → (stringConstIdx pool s).2 = pool) := by
  refine ⟨poolStrings_buildPool_nodup, ?_⟩
  intro pool s hs
  have hmem : pool.any fun c => c.isString && c.strVal == s := by
    simp only [poolStrings, List.mem_map, List.mem_filter] at hs
    obtain ⟨c, ⟨hc, hcs⟩, hval⟩ := hs
    exact List.any_eq_true.mpr ⟨c, hc, by simp [hcs, hval]⟩
  simp [stringConstIdx, allocConst, hmem]

/-- Witness for constant_pool_string_uniqueness at a concrete pool. -/
theorem constant_pool_string_uniqueness_witness :
    (stringConstIdx [EvaValue.str "hi"] "hi").2 = [EvaValue.str "hi"] :=
  constant_pool_string_uniqueness.2 [EvaValue.str "hi"] "hi" (by decide)

/-- Modelled from the spec: the file src/bytecode/OpCode.h is not part of the
repository sources. Section 4.2.2 of the spec fixes the opcode names and
operand widths; the byte values below are an arbitrary injective enumeration
(no claim depends on the concrete values). -/
def OP_HALT : Nat := 0

/-- Opcode byte for OP_CONST (see OP_HALT for provenance). -/
def OP_CONST : Nat := 1

/-- Opcode byte for OP_ADD. -/
def OP_ADD : Nat := 2

/-- Opcode byte for OP_SUB. -/
def OP_SUB : Nat := 3

/-- Opcode byte for OP_MUL. -/
def OP_MUL : Nat := 4

/-- Opcode byte for OP_DIV. -/
def OP_DIV : Nat := 5

/-- Opcode byte for OP_COMPARE. -/
def OP_COMPARE : Nat := 6

/-- Opcode byte for OP_JMP_IF_FALSE. -/
def OP_JMP_IF_FALSE : Nat := 7

/-- Opcode byte for OP_JMP. -/
def OP_JMP : Nat := 8

/-- Opcode byte for OP_GET_GLOBAL. -/
def OP_GET_GLOBAL : Nat := 9

/-- Opcode byte for OP_SET_GLOBAL. -/
def OP_SET_GLOBAL : Nat := 10

/-- Opcode byte for OP_POP. -/
def OP_POP : Nat := 11

/-- Opcode byte for OP_GET_LOCAL. -/
def OP_GET_LOCAL : Nat := 12

/-- Opcode byte for OP_SET_LOCAL. -/
def OP_SET_LOCAL : Nat := 13

/-- Opcode byte for OP_GET_CELL. -/
def OP_GET_CELL : Nat := 14

/-- Opcode byte for OP_SET_CELL. -/
def OP_SET_CELL : Nat := 15

/-- Opcode byte for OP_LOAD_CELL. -/
def OP_LOAD_CELL : Nat := 16

/-- Opcode byte for OP_MAKE_FUNCTION. -/
def OP_MAKE_FUNCTION : Nat := 17

/-- Opcode byte for OP_SCOPE_EXIT. -/
def OP_SCOPE_EXIT : Nat := 18

/-- Opcode byte for OP_CALL. -/
def OP_CALL : Nat := 19

/-- Opcode byte for OP_RETURN. -/
def OP_RETURN : Nat := 20

/-- Opcode byte for OP_NEW. -/
def OP_NEW : Nat := 21

/-- Opcode byte for OP_GET_PROP. -/
def OP_GET_PROP : Nat := 22

/-- Opcode byte for OP_SET_PROP. -/
def OP_SET_PROP : Nat := 23

/-- Constant STACK_LIMIT of EvaVM.h (line 57): capacity of the std::array
operand stack. -/
def STACK_LIMIT : Nat := 512

/-- Entry of the globals table (struct GlobalVar in src/src/vm/Global.h). -/
structure GlobalVar where
  name : String
  value : EvaValue
deriving Repr, DecidableEq

/-- State of the EvaVM dispatch loop for one code object: the operand stack
is the live prefix of the 512-slot array, listed bottom first, so sp is the
list length; bp indexes into it; code and constants are the fields of the
current CodeObject. Call frames, cells and class objects are outside this
embedding (the opcodes that touch them step to the unmodeled result). -/
structure VMState where
  stack : List EvaValue
  bp : Nat
  ip : Nat
  code : List Nat
  constants : List EvaValue
  globals : List GlobalVar
deriving Repr, DecidableEq

/-- Method EvaVM::push (EvaVM.h lines 148-154): fatal stack overflow at the
capacity, otherwise write at sp and advance it. -/
def vmPush (stack : List EvaValue) (v : EvaValue) :
    Except String (List EvaValue) :=
  if stack.length == STACK_LIMIT then .error "push(): stack overflow."
  else .ok (stack ++ [v])

/-- Method EvaVM::pop (EvaVM.h lines 159-165): the guard compares sp against
the stack base. -/
def vmPop (stack : List EvaValue) :
    Except String (EvaValue × List EvaValue) :=
  match stack.getLast? with
  | some v => .ok (v, stack.dropLast)
  | none => .error "pop(): empty stack."

/-- Method EvaVM::peek as written (EvaVM.h lines 170-175): the guard tests
stack.size(), the size of the std::array member, which is the compile-time
constant STACK_LIMIT and never zero, so the guard cannot fire; the read
*(sp - 1 - offset) is modelled as an optional lookup, with none standing for
the out-of-range (undefined) read below the stack base. -/
def vmPeek (stack : List EvaValue) (offset : Nat) :
    Except String (Option EvaValue) :=
  if STACK_LIMIT == 0 then .error "peek(): empty stack."
  else
    .ok (if h : offset < stack.length then
           some (stack.get ⟨stack.length - 1 - offset, by omega⟩)
         else none)

/-- Result of one dispatch step of EvaVM::eval: a successor state, the value
returned by OP_HALT, a fatal DIE abort with its message, undefined behavior
(out-of-range reads of code, constants or stack), or an opcode whose
semantics (cells, call frames, classes) is outside this embedding. -/
inductive StepResult where
  | next (s : VMState)
  | halted (v : EvaValue)
  | fatal (msg : String)
  | undefined
  | unmodeled
deriving Repr, DecidableEq

/-- Macro COMPARE_VALUES (EvaVM.h lines 82-106) on numbers: the comparator
codes 0..5; for any other byte the local res is read uninitialized, which is
modelled as none. -/
def compareNum (op : Nat) (v1 v2 : ℚ) : Option Bool :=
  match op with
  | 0 => some (decide (v1 < v2))
  | 1 => some (decide (v1 > v2))
  | 2 => some (decide (v1 = v2))
  | 3 => some (decide (v1 ≥ v2))
  | 4 => some (decide (v1 ≤ v2))
  | 5 => some (decide (v1 ≠ v2))
  | _ => none

/-- Body of the OP_JMP_IF_FALSE case (EvaVM.h lines 346-353): pop the
condition with AS_BOOLEAN, READ_SHORT the 2-byte big-endian absolute
address, and redirect ip when the condition is false. This block is reached
by the OP_JMP_IF_FALSE dispatch and also by fall-through from the
OP_COMPARE case, which ends without a break. AS_BOOLEAN on a value that is
not a boolean reads the wrong union member, modelled as undefined. -/
def jmpIfFalseBody (s : VMState) (stack : List EvaValue) (ip : Nat) :
    StepResult :=
  match vmPop stack with
  | .error e => .fatal e
  | .ok (cond, stack1) =>
    match cond with
    | .boolean b =>
      match s.code.get? ip, s.code.get? (ip + 1) with
      | some hi, some lo =>
          .next { s with stack := stack1,
                         ip := if b then ip + 2 else hi * 256 + lo }
      | _, _ => .undefined
    | _ => .undefined

/-- Macro BINARY_OP (EvaVM.h lines 72-77): pop op2 then op1, AS_NUMBER both
(a non-number payload is an undefined union read), push the result. Division
is rational here; the IEEE infinity on division by zero is not
representable, but no claim exercises OP_DIV. -/
def binaryOp (s : VMState) (f : ℚ → ℚ → ℚ) (ip : Nat) : StepResult :=
  match vmPop s.stack with
  | .error e => .fatal e
  | .ok (op2, st1) =>
    match vmPop st1 with
    | .error e => .fatal e
    | .ok (op1, st2) =>
      match op1, op2 with
      | .num v1, .num v2 =>
        match vmPush st2 (.num (f v1 v2)) with
        | .error e => .fatal e
        | .ok st3 => .next { s with stack := st3, ip := ip }
      | _, _ => .undefined

/-- One iteration of the EvaVM::eval dispatch loop (EvaVM.h lines 292-517),
with the case blocks in source order. Two transcription slips of the source
are preserved as written: the OP_COMPARE case block has no break and falls
through into the OP_JMP_IF_FALSE body, and the case label intended for
OP_GET_LOCAL (line 377) repeats OP_GET_GLOBAL, so OP_GET_LOCAL reaches the
default branch. OP_SET_GLOBAL calls pop (the source text pop(0) passes an
argument that pop does not take; the nearest reading, the call of pop, is
used). Cell, call, class and property opcodes step to unmodeled. -/
def step (s : VMState) : StepResult :=
  match s.code.get? s.ip with
  | none => .undefined
  | some opcode =>
    let ip := s.ip + 1
    if opcode = OP_HALT then
      match vmPop s.stack with
      | .error e => .fatal e
      | .ok (v, _) => .halted v
    else if opcode = OP_CONST then
      match s.code.get? ip with
      | none => .undefined
      | some ci =>
        match s.constants.get? ci with
        | none => .undefined
        | some c =>
          match vmPush s.stack c with
          | .error e => .fatal e
          | .ok st => .next { s with stack := st, ip := ip + 1 }
    else if opcode = OP_ADD then
      match vmPop s.stack with
      | .error e => .fatal e
      | .ok (op2, st1) =>
        match vmPop st1 with
        | .error e => .fatal e
        | .ok (op1, st2) =>
          match op1, op2 with
          | .num v1, .num v2 =>
            match vmPush st2 (.num (v1 + v2)) with
            | .error e => .fatal e
            | .ok st3 => .next { s with stack := st3, ip := ip }
          | .str s1, .str s2 =>
            match vmPush st2 (.str (s1 ++ s2)) with
            | .error e => .fatal e
            | .ok st3 => .next { s with stack := st3, ip := ip }
          | _, _ => .next { s with stack := st2, ip := ip }
    else if opcode = OP_SUB then
      binaryOp s (fun a b => a - b) ip
    else if opcode = OP_MUL then
      binaryOp s (fun a b => a * b) ip
    else if opcode = OP_DIV then
      binaryOp s (fun a b => a / b) ip
    else if opcode = OP_COMPARE then
      match s.code.get? ip with
      | none => .undefined
      | some k =>
        match vmPop s.stack with
        | .error e => .fatal e
        | .ok (op2, st1) =>
          match vmPop st1 with
          | .error e => .fatal e
          | .ok (op1, st2) =>
            match op1, op2 with
            | .num v1, .num v2 =>
              match compareNum k v1 v2 with
              | none => .undefined
              | some res =>
                match vmPush st2 (.boolean res) with
                | .error e => .fatal e
                | .ok st3 => jmpIfFalseBody s st3 (ip + 1)
            | .str _, .str _ => .undefined
            | _, _ => jmpIfFalseBody s st2 (ip + 1)
    else if opcode = OP_JMP_IF_FALSE then
      jmpIfFalseBody s s.stack ip
    else if opcode = OP_JMP then
      match s.code.get? ip, s.code.get? (ip + 1) with
      | some hi, some lo => .next { s with ip := hi * 256 + lo }
      | _, _ => .undefined
    else if opcode = OP_GET_GLOBAL then
      match s.code.get? ip with
      | none => .undefined
      | some gi =>
        match s.globals.get? gi with
        | none => .undefined
        | some g =>
          match vmPush s.stack g.value with
          | .error e => .fatal e
          | .ok st => .next { s with stack := st, ip := ip + 1 }
    else if opcode = OP_SET_GLOBAL then
      match s.code.get? ip with
      | none => .undefined
      | some gi =>
        match vmPop s.stack with
        | .error e => .fatal e
        | .ok (v, st1) =>
          match s.globals.get? gi with
          | none => .fatal ("Global " ++ toString gi ++ " does not exist.")
          | some g =>
            .next { s with stack := st1, ip := ip + 1,
                           globals := s.globals.set gi { g with value := v } }
    else if opcode = OP_POP then
      match vmPop s.stack with
      | .error e => .fatal e
      | .ok (_, st1) => .next { s with stack := st1, ip := ip }
    else if opcode = OP_SET_LOCAL then
      match s.code.get? ip with
      | none => .undefined
      | some li =>
        match vmPeek s.stack 0 with
        | .error e => .fatal e
        | .ok none => .undefined
        | .ok (some v) =>
          if li ≥ STACK_LIMIT then
            .fatal ("OP_GET_LOCAL: invalid variable index: " ++ toString li)
          else if s.bp + li < s.stack.length then
            .next { s with stack := s.stack.set (s.bp + li) v, ip := ip + 1 }
          else .undefined
    else if opcode = OP_GET_CELL ∨ opcode = OP_SET_CELL ∨
            opcode = OP_LOAD_CELL ∨ opcode = OP_MAKE_FUNCTION then
      .unmodeled
    else if opcode = OP_SCOPE_EXIT then
      match s.code.get? ip with
      | none => .undefined
      | some count =>
        match vmPeek s.stack 0 with
        | .error e => .fatal e
        | .ok none => .undefined
        | .ok (some top) =>
          if count + 1 ≤ s.stack.length then
            .next { s with
                    stack := (s.stack.set (s.stack.length - 1 - count) top).take
                               (s.stack.length - count),
                    ip := ip + 1 }
          else .undefined
    else if opcode = OP_CALL ∨ opcode = OP_RETURN ∨ opcode = OP_NEW ∨
            opcode = OP_GET_PROP ∨ opcode = OP_SET_PROP then
      .unmodeled
    else
      .fatal ("Unkown Opcode: " ++ toString opcode)

/-- Fuel-bounded iteration of the dispatch loop; a next result after the
fuel runs out reports the still-running state. -/
def runVM : Nat → VMState → StepResult
  | 0, s => .next s
  | fuel + 1, s =>
    match step s with
    | .next s2 => runVM fuel s2
    | r => r

/-- Code and constant pool produced for a single numeric literal n compiled
into a fresh main code object, followed by the OP_HALT that compile()
appends: gen for ExpType NUMBER (EvaCompiler.h lines 173-176) emits OP_CONST
and the index returned by numericConstIdx. -/
def compileNumericLiteral (render : ℚ → String) (n : ℚ) :
    List EvaValue × List Nat :=
  let r := numericConstIdx render [] n
  (r.2, [OP_CONST, r.1, OP_HALT])

/-- Initial VM state over a compiled main code object (EvaVM::exec lines
272-286: ip at the code start, sp and bp at the stack base). -/
def initialVMState (consts : List EvaValue) (code : List Nat) : VMState :=
  { stack := [], bp := 0, ip := 0, code := code, constants := consts,
    globals := [] }

/-- Claim C1 (code bug). Compiling the numeric literal n and executing the
result does not return the number n: ALLOC_CONST ignores its tester,
converter and allocator parameters and appends an ALLOC_STRING constant, so
the pool entry for the literal is a string-tagged value and OP_CONST pushes
that string back, for every rendering of the literal. -/
theorem numeric_literal_roundtrip_fails (render : ℚ → String) (n : ℚ) :
    runVM 2 (initialVMState (compileNumericLiteral render n).1
                            (compileNumericLiteral render n).2)
      = .halted (.str (render n)) ∧
    EvaValue.str (render n) ≠ EvaValue.num n := by
  constructor
  · rfl
  · simp

/-- Claim C2 (code bug). Executing OP_GET_LOCAL aborts with the
unknown-opcode fatal error instead of pushing bp[i]: the case label intended
for OP_GET_LOCAL (EvaVM.h line 377) repeats OP_GET_GLOBAL, so the opcode
reaches the default branch of the dispatcher. -/
theorem op_get_local_hits_default (s : VMState)
    (h : s.code.get? s.ip = some OP_GET_LOCAL) :
    step s = .fatal ("Unkown Opcode: " ++ toString OP_GET_LOCAL) := by
  have h2 : s.code[s.ip]? = some OP_GET_LOCAL := by simpa using h
  simp [step, h2, OP_HALT, OP_CONST, OP_ADD, OP_SUB, OP_MUL, OP_DIV,
        OP_COMPARE, OP_JMP_IF_FALSE, OP_JMP, OP_GET_GLOBAL, OP_SET_GLOBAL,
        OP_POP, OP_GET_LOCAL, OP_SET_LOCAL, OP_GET_CELL, OP_SET_CELL,
        OP_LOAD_CELL, OP_MAKE_FUNCTION, OP_SCOPE_EXIT, OP_CALL, OP_RETURN,
        OP_NEW, OP_GET_PROP, OP_SET_PROP]

/-- Witness for op_get_local_hits_default at a concrete state. -/
theorem op_get_local_hits_default_witness :
    step { stack := [EvaValue.num 7], bp := 0, ip := 0,
           code := [OP_GET_LOCAL, 0], constants := [], globals := [] }
      = .fatal ("Unkown Opcode: " ++ toString OP_GET_LOCAL) :=
  op_get_local_hits_default _ rfl

/-- Concrete state for the OP_COMPARE fall-through: compare 1 < 2 with the
comparator byte 0, followed by two more instructions. -/
def compareState : VMState :=
  { stack := [.num 1, .num 2], bp := 0, ip := 0,
    code := [OP_COMPARE, 0, OP_POP, OP_HALT], constants := [], globals := [] }

/-- Claim C5 (code bug). The OP_COMPARE case block ends without a break, so
after pushing the boolean the control falls through into the
OP_JMP_IF_FALSE body, which pops that boolean again and consumes the next
two code bytes as a jump address. Here 1 < 2 pushes true; the fall-through
pops it and leaves ip = 4, past the OP_POP that was the next instruction,
with an empty stack — instead of stack [true] at ip = 2 as the claim
states. -/
theorem op_compare_falls_through :
    step compareState
      = .next { stack := [], bp := 0, ip := 4,
                code := [OP_COMPARE, 0, OP_POP, OP_HALT], constants := [],
                globals := [] } := by
  rfl

/-- Concrete state for OP_SET_GLOBAL: one value on the stack, one global. -/
def setGlobalState : VMState :=
  { stack := [.num 7], bp := 0, ip := 0, code := [OP_SET_GLOBAL, 0],
    constants := [], globals := [{ name := "x", value := .num 0 }] }

/-- Claim C6 (code bug). OP_SET_GLOBAL removes the top of the stack: the
source calls pop (written pop(0); pop takes no argument, and the intended
peek(0) is what the spec describes), so after the instruction the operand
stack is empty rather than unchanged, while globals[0] received the
value. -/
theorem op_set_global_pops :
    step setGlobalState
      = .next { stack := [], bp := 0, ip := 2, code := [OP_SET_GLOBAL, 0],
                constants := [],
                globals := [{ name := "x", value := .num 7 }] } := by
  rfl

/-- Claim C9 (code bug). pop aborts with the EmptyStack fatal error when sp
is at the stack base, but peek does not: its guard tests the size of the
std::array member, the constant STACK_LIMIT, so with sp at the base peek
performs an out-of-range read (modelled as none) instead of aborting. -/
theorem pop_aborts_but_peek_does_not :
    vmPop ([] : List EvaValue) = .error "pop(): empty stack." ∧
    vmPeek ([] : List EvaValue) 0 = .ok none := by
  constructor <;> rfl

/-- Macro FUNCTION_CALL of EvaCompiler.h (lines 52-60) as written: gen of
exp.list[0], then a loop over i = 0 .. exp.list.size() - 1 calling gen on
exp.list[i] — the loop begins at index 0, so the callee is generated a
second time — then OP_CALL with operand exp.list.size() - 1. The
surrounding gen is a parameter of the embedding (the macro captures it from
its expansion site); the empty result on an empty list stands for the
exp.list[0] access the compiler never performs, a call expression having a
head. -/
def functionCallGen {α : Type} (genFn : α → List Nat) : List α → List Nat
  | [] => []
  | callee :: args =>
      genFn callee ++ ((callee :: args).map genFn).flatten
        ++ [OP_CALL, (callee :: args).length - 1]

/-- Claim C3 (code bug). The emitted call sequence contains the callee code
twice: FUNCTION_CALL first generates the callee and then its loop starts
again at index 0 rather than 1, regenerating the callee before the
arguments. The operand of OP_CALL is the argument count, as claimed. -/
theorem function_call_compiles_callee_twice {α : Type}
    (genFn : α → List Nat) (callee : α) (args : List α) :
    functionCallGen genFn (callee :: args)
      = genFn callee ++ (genFn callee ++ ((args.map genFn).flatten
          ++ [OP_CALL, args.length])) := by
  simp [functionCallGen]

/-- Compiler emit (EvaCompiler.h line 710): append one byte to the code of
the currently compiling code object. -/
def emitByte (code : List Nat) (b : Nat) : List Nat := code ++ [b]

/-- Function writeByteAtOffset (EvaCompiler.h lines 715-717). -/
def writeByteAtOffset (code : List Nat) (offset : Nat) (value : Nat) :
    List Nat :=
  code.set offset value

/-- Function patchJumpAddress (EvaCompiler.h lines 722-725): write the
16-bit big-endian value at the offset, upper byte then lower byte. -/
def patchJumpAddress (code : List Nat) (offset : Nat) (value : Nat) :
    List Nat :=
  writeByteAtOffset (writeByteAtOffset code offset (value / 256 % 256))
    (offset + 1) (value % 256)

/-- Compilation of (while test body) (EvaCompiler.h lines 292-312), with the
code generated for the test and for the body passed as byte lists: record
the loop start (getOffset casts the code size to uint16_t, hence the mod),
emit the test, OP_JMP_IF_FALSE with a 2-byte placeholder, the body, OP_JMP
patched back to the loop start, and finally patch the false target with
getOffset() + 1. -/
def genWhile (code test body : List Nat) : List Nat :=
  let loopStartAddr := code.length % 65536
  let c1 := code ++ test
  let c2 := emitByte (emitByte (emitByte c1 OP_JMP_IF_FALSE) 0) 0
  let loopEndJmpAddr := c2.length % 65536 - 2
  let c3 := c2 ++ body
  let c4 := emitByte (emitByte (emitByte c3 OP_JMP) 0) 0
  let c5 := patchJumpAddress c4 (c4.length % 65536 - 2) loopStartAddr
  let loopEndAddr := c5.length % 65536 + 1
  patchJumpAddress c5 loopEndJmpAddr (loopEndAddr % 65536)

/-- Decoding of a 2-byte big-endian jump target stored in the code. -/
def readJumpTarget (code : List Nat) (offset : Nat) : Nat :=
  256 * code.getD offset 0 + code.getD (offset + 1) 0

/-- Reading back a patched 16-bit address returns the patched value. -/
theorem readJumpTarget_patch (c : List Nat) (o v : Nat)
    (h1 : o + 1 < c.length) (h2 : v < 65536) :
    readJumpTarget (patchJumpAddress c o v) o = v := by
  have ho : o < c.length := by omega
  have hne : o ≠ o + 1 := by omega
  have hv : v / 256 % 256 = v / 256 := by
    have : v / 256 < 256 := by omega
    omega
  simp [readJumpTarget, patchJumpAddress, writeByteAtOffset,
        List.getD_eq_getElem?_getD, List.getElem?_set_ne hne,
        List.getElem?_set_self, ho, h1, hv]
  omega

/-- Patching at an offset disjoint from a 16-bit read leaves the read
unchanged. -/
theorem readJumpTarget_patch_disjoint (c : List Nat) (o v o2 : Nat)
    (h : o2 + 1 < o ∨ o + 1 < o2) :
    readJumpTarget (patchJumpAddress c o v) o2 = readJumpTarget c o2 := by
  have h1 : o ≠ o2 := by omega
  have h2 : o + 1 ≠ o2 := by omega
  have h3 : o ≠ o2 + 1 := by omega
  have h4 : o + 1 ≠ o2 + 1 := by omega
  simp [readJumpTarget, patchJumpAddress, writeByteAtOffset,
        List.getD_eq_getElem?_getD, List.getElem?_set_ne h1,
        List.getElem?_set_ne h2, List.getElem?_set_ne h3,
        List.getElem?_set_ne h4]

/-- Length preservation of patchJumpAddress. -/
theorem patchJumpAddress_length (c : List Nat) (o v : Nat) :
    (patchJumpAddress c o v).length = c.length := by
  simp [patchJumpAddress, writeByteAtOffset]

/-- Claim C7 (code bug). The false target of the while loop is patched to
getOffset() + 1, one byte past the offset immediately after the loop: for
every enclosing code, test and body (of total size within the 16-bit
address space) the two bytes written at the placeholder decode to the final
code length plus one, not the final code length; the back jump does target
the recorded loop start. -/
theorem while_false_target_patched_past_loop_end
    (code test body : List Nat)
    (h : code.length + test.length + body.length + 7 < 65536) :
    (genWhile code test body).length
        = code.length + test.length + body.length + 6 ∧
    readJumpTarget (genWhile code test body)
        (code.length + test.length + 1)
      = (genWhile code test body).length + 1 ∧
    readJumpTarget (genWhile code test body)
        (code.length + test.length + 1)
      ≠ (genWhile code test body).length ∧
    readJumpTarget (genWhile code test body)
        ((genWhile code test body).length - 2)
      = code.length := by
  have hl2 : ((((code ++ test) ++ [OP_JMP_IF_FALSE]) ++ [0]) ++ [0]).length
      = code.length + test.length + 3 := by
    simp only [List.length_append, List.length_cons, List.length_nil]
  have hl4 : ((((((((code ++ test) ++ [OP_JMP_IF_FALSE]) ++ [0]) ++ [0])
        ++ body) ++ [OP_JMP]) ++ [0]) ++ [0]).length
      = code.length + test.length + body.length + 6 := by
    simp only [List.length_append, List.length_cons, List.length_nil]
    omega
  have hbase :
      genWhile code test body
        = patchJumpAddress
            (patchJumpAddress
              (code ++ test ++ [OP_JMP_IF_FALSE] ++ [0] ++ [0] ++ body
                ++ [OP_JMP] ++ [0] ++ [0])
              (code.length + test.length + body.length + 4) code.length)
            (code.length + test.length + 1)
            (code.length + test.length + body.length + 7) := by
    simp only [genWhile, emitByte]
    rw [patchJumpAddress_length]
    rw [hl2, hl4]
    rw [Nat.mod_eq_of_lt (show code.length < 65536 by omega)]
    rw [Nat.mod_eq_of_lt
        (show code.length + test.length + 3 < 65536 by omega)]
    rw [Nat.mod_eq_of_lt
        (show code.length + test.length + body.length + 6 < 65536 by omega)]
    rw [Nat.mod_eq_of_lt
        (show code.length + test.length + body.length + 6 + 1 < 65536
          by omega)]
    congr 1
  have hlen : (genWhile code test body).length
      = code.length + test.length + body.length + 6 := by
    rw [hbase, patchJumpAddress_length, patchJumpAddress_length]
    simp only [List.length_append, List.length_cons, List.length_nil]
    omega
  have hread : readJumpTarget (genWhile code test body)
      (code.length + test.length + 1)
      = code.length + test.length + body.length + 7 := by
    rw [hbase]
    rw [readJumpTarget_patch]
    · rw [patchJumpAddress_length]
      simp only [List.length_append, List.length_cons, List.length_nil]
      omega
    · omega
  refine ⟨hlen, ?_, ?_, ?_⟩
  · rw [hread, hlen]
  · rw [hread, hlen]
    omega
  · rw [hlen]
    rw [show code.length + test.length + body.length + 6 - 2
        = code.length + test.length + body.length + 4 by omega]
    rw [hbase]
    rw [readJumpTarget_patch_disjoint]
    · rw [readJumpTarget_patch]
      · simp only [List.length_append, List.length_cons, List.length_nil]
        omega
      · omega
    · right
      omega

/-- Witness for while_false_target_patched_past_loop_end on a one-byte test
and a one-byte body in a fresh code object. -/
theorem while_false_target_patched_past_loop_end_witness :
    (genWhile [] [OP_GET_GLOBAL] [OP_POP]).length = 0 + 1 + 1 + 6 ∧
    readJumpTarget (genWhile [] [OP_GET_GLOBAL] [OP_POP]) (0 + 1 + 1)
      = (genWhile [] [OP_GET_GLOBAL] [OP_POP]).length + 1 ∧
    readJumpTarget (genWhile [] [OP_GET_GLOBAL] [OP_POP]) (0 + 1 + 1)
      ≠ (genWhile [] [OP_GET_GLOBAL] [OP_POP]).length ∧
    readJumpTarget (genWhile [] [OP_GET_GLOBAL] [OP_POP])
        ((genWhile [] [OP_GET_GLOBAL] [OP_POP]).length - 2) = 0 := by
  have := while_false_target_patched_past_loop_end [] [OP_GET_GLOBAL]
    [OP_POP] (by simp)
  simpa using this

/-- Heap object variants as the collector sees them (src/src/vm/EvaValue.h),
with cross references by registry identifier: a function holds its captured
cells and its code object, a cell the identifier of its contained value when
that value is an object, an instance its class and its object-valued
properties, a class its object-valued properties and optional super class,
a code object the objects among its constants. -/
inductive GCObj where
  | strO
  | nativeO
  | codeO (constObjs : List Nat)
  | functionO (cells : List Nat) (co : Nat)
  | cellO (value : Option Nat)
  | classO (props : List Nat) (superC : Option Nat)
  | instanceO (cls : Nat) (props : List Nat)
deriving Repr, DecidableEq

/-- Method EvaCollector::getPointers as written (EvaCollector.h lines
50-71): only two variants contribute successor edges — a function yields
its captured cells and an instance the object-valued entries of its
property map. The contained value of a cell, the code object of a function,
the class of an instance, the super class and the properties of a class and
the constants of a code object are not traversed. -/
def getPointers : GCObj → List Nat
  | .functionO cells _ => cells
  | .instanceO _ props => props
  | _ => []

/-- Successor edges as the claim describes them (spec section 4.4): the
code edges plus cell → contained value, function → code object,
instance → class, class → properties and super class, code → constants. -/
def specPointers : GCObj → List Nat
  | .strO => []
  | .nativeO => []
  | .codeO cs => cs
  | .functionO cells co => cells ++ [co]
  | .cellO v => v.toList
  | .classO props superC => props ++ superC.toList
  | .instanceO cls props => cls :: props

/-- Successors of a registered object under a given edge function; an
identifier absent from the registry has none. -/
def succList (succ : GCObj → List Nat) (heap : List (Nat × GCObj))
    (o : Nat) : List Nat :=
  match heap.lookup o with
  | some obj => succ obj
  | none => []

/-- Reachability from the roots along successor edges. -/
inductive ReachVia (succ : GCObj → List Nat) (heap : List (Nat × GCObj))
    (roots : List Nat) : Nat → Prop where
  | root {o : Nat} : o ∈ roots → ReachVia succ heap roots o
  | step {a b : Nat} : ReachVia succ heap roots a →
      b ∈ succList succ heap a → ReachVia succ heap roots b

/-- Worklist loop of EvaCollector::mark (EvaCollector.h lines 33-45): pop
an object, skip it when already marked, otherwise mark it and push its
pointers. The mark bits are modelled as the list of marked identifiers; the
fuel argument bounds the iterations, and the measure below shows that the
fuel chosen in mark always suffices. -/
def markLoop (heap : List (Nat × GCObj)) :
    Nat → List Nat → List Nat → List Nat
  | 0, _, marked => marked
  | _ + 1, [], marked => marked
  | fuel + 1, o :: wl, marked =>
    if o ∈ marked then markLoop heap fuel wl marked
    else markLoop heap fuel (succList getPointers heap o ++ wl) (o :: marked)

/-- Pending work in unmarked registered objects: one mark step per object
plus its pointer pushes. -/
def markPending (heap : List (Nat × GCObj)) (marked : List Nat) : Nat :=
  ((heap.filter fun e => decide (e.1 ∉ marked)).map
    fun e => 1 + (getPointers e.2).length).sum

/-- Progress measure of the worklist loop: the pending worklist plus the
pending work of the unmarked registered objects. -/
def markMeasure (heap : List (Nat × GCObj)) (wl marked : List Nat) : Nat :=
  wl.length + markPending heap marked

/-- Mark phase: run the worklist from the roots with sufficient fuel. -/
def mark (heap : List (Nat × GCObj)) (roots : List Nat) : List Nat :=
  markLoop heap (markMeasure heap roots [] + 1) roots []

/-- Sweep phase (EvaCollector.h lines 76-90): walk the registry; a marked
object stays (its mark bit cleared for the next cycle), an unmarked one is
erased from the registry and deleted. The first component is the surviving
registry, the second the freed entries in walk order. -/
def sweepGC (heap : List (Nat × GCObj)) (marked : List Nat) :
    List (Nat × GCObj) × List (Nat × GCObj) :=
  match heap with
  | [] => ([], [])
  | e :: rest =>
    let r := sweepGC rest marked
    if e.1 ∈ marked then (e :: r.1, r.2) else (r.1, e :: r.2)

/-- Method EvaCollector::gc (EvaCollector.h lines 25-28): mark from the
roots, then sweep the registry. -/
def gcRun (heap : List (Nat × GCObj)) (roots : List Nat) :
    List (Nat × GCObj) × List (Nat × GCObj) :=
  sweepGC heap (mark heap roots)

/-- Survivors of the sweep are the registry entries whose identifier is
marked. -/
theorem sweepGC_fst (heap : List (Nat × GCObj)) (marked : List Nat) :
    (sweepGC heap marked).1
      = heap.filter fun e => decide (e.1 ∈ marked) := by
  induction heap with
  | nil => rfl
  | cons e rest ih =>
      by_cases he : e.1 ∈ marked <;> simp [sweepGC, he, ih]

/-- Freed entries of the sweep are the registry entries whose identifier is
unmarked. -/
theorem sweepGC_snd (heap : List (Nat × GCObj)) (marked : List Nat) :
    (sweepGC heap marked).2
      = heap.filter fun e => decide (e.1 ∉ marked) := by
  induction heap with
  | nil => rfl
  | cons e rest ih =>
      by_cases he : e.1 ∈ marked <;> simp [sweepGC, he, ih]

/-- Unfolding of the pending work over the head of the registry. -/
theorem markPending_cons (e : Nat × GCObj) (rest : List (Nat × GCObj))
    (marked : List Nat) :
    markPending (e :: rest) marked
      = (if e.1 ∈ marked then 0 else 1 + (getPointers e.2).length)
          + markPending rest marked := by
  by_cases hm : e.1 ∈ marked <;> simp [markPending, List.filter_cons, hm]

/-- Marking one more identifier never increases the pending work. -/
theorem markPending_cons_le (heap : List (Nat × GCObj)) (o : Nat)
    (marked : List Nat) :
    markPending heap (o :: marked) ≤ markPending heap marked := by
  induction heap with
  | nil => simp [markPending]
  | cons e rest ih =>
      rw [markPending_cons, markPending_cons]
      by_cases hm : e.1 ∈ marked
      · rw [if_pos hm, if_pos (List.mem_cons_of_mem _ hm)]
        omega
      · rw [if_neg hm]
        by_cases ho : e.1 = o
        · rw [if_pos (by simp [ho])]
          omega
        · rw [if_neg (by simp [ho, hm])]
          omega

/-- Marking a registered unmarked identifier removes at least its own
pending contribution from the measure. -/
theorem markPending_lookup (heap : List (Nat × GCObj)) (o : Nat)
    (marked : List Nat) (obj : GCObj)
    (hlk : heap.lookup o = some obj) (ho : o ∉ marked) :
    1 + (getPointers obj).length + markPending heap (o :: marked)
      ≤ markPending heap marked := by
  induction heap with
  | nil => simp [List.lookup] at hlk
  | cons e rest ih =>
      have hcons : List.lookup o (e :: rest)
          = if o = e.1 then some e.2 else List.lookup o rest := by
        cases e with
        | mk k v =>
            by_cases hk : o = k
            · subst hk
              simp [List.lookup]
            · have hb : (o == k) = false := by simpa using hk
              simp [List.lookup, hb, hk]
      rw [hcons] at hlk
      rw [markPending_cons, markPending_cons]
      by_cases he : o = e.1
      · rw [if_pos he] at hlk
        have hobj : obj = e.2 := by
          injection hlk with h2
          exact h2.symm
        have hm : e.1 ∉ marked := by rw [← he]; exact ho
        rw [if_neg hm, if_pos (by simp [← he])]
        have := markPending_cons_le rest o marked
        subst hobj
        omega
      · rw [if_neg he] at hlk
        have := ih hlk
        by_cases hm : e.1 ∈ marked
        · rw [if_pos hm, if_pos (List.mem_cons_of_mem _ hm)]
          omega
        · rw [if_neg hm,
              if_neg (by
                intro hcon
                rcases List.mem_cons.mp hcon with h1 | h2
                · exact he h1.symm
                · exact hm h2)]
          omega

/-- Running the worklist with fuel above the measure yields a set containing
the marked identifiers and the worklist, closed under the traced successor
edges (provided the marked set already routed its successors through marked
or the worklist). -/
theorem markLoop_run (heap : List (Nat × GCObj)) :
    ∀ (fuel : Nat) (wl marked : List Nat),
      markMeasure heap wl marked < fuel →
      (∀ a ∈ marked, ∀ b ∈ succList getPointers heap a,
          b ∈ marked ∨ b ∈ wl) →
      (∀ x ∈ marked, x ∈ markLoop heap fuel wl marked) ∧
      (∀ x ∈ wl, x ∈ markLoop heap fuel wl marked) ∧
      (∀ a ∈ markLoop heap fuel wl marked,
        ∀ b ∈ succList getPointers heap a,
          b ∈ markLoop heap fuel wl marked) := by
  intro fuel
  induction fuel with
  | zero =>
      intro wl marked hm hcl
      exact absurd hm (Nat.not_lt_zero _)
  | succ n ih =>
      intro wl marked hm hcl
      cases wl with
      | nil =>
          refine ⟨?_, ?_, ?_⟩
          · intro x hx
            simpa [markLoop] using hx
          · intro x hx
            simp at hx
          · intro a ha b hb
            have h2 := hcl a (by simpa [markLoop] using ha) b hb
            have h3 : b ∈ marked := h2.resolve_right (by simp)
            simpa [markLoop] using h3
      | cons o wl =>
          by_cases ho : o ∈ marked
          · have hstep : markLoop heap (n + 1) (o :: wl) marked
                = markLoop heap n wl marked := by
              simp [markLoop, ho]
            have hm2 : markMeasure heap wl marked < n := by
              have e1 : markMeasure heap (o :: wl) marked
                  = markMeasure heap wl marked + 1 := by
                simp only [markMeasure, List.length_cons]
                omega
              omega
            have hcl2 : ∀ a ∈ marked, ∀ b ∈ succList getPointers heap a,
                b ∈ marked ∨ b ∈ wl := by
              intro a ha b hb
              rcases hcl a ha b hb with h1 | h2
              · exact Or.inl h1
              · rcases List.mem_cons.mp h2 with h3 | h4
                · exact Or.inl (h3 ▸ ho)
                · exact Or.inr h4
            obtain ⟨r1, r2, r3⟩ := ih wl marked hm2 hcl2
            rw [hstep]
            refine ⟨r1, ?_, r3⟩
            intro x hx
            rcases List.mem_cons.mp hx with h1 | h2
            · exact r1 x (h1 ▸ ho)
            · exact r2 x h2
          · have hstep : markLoop heap (n + 1) (o :: wl) marked
                = markLoop heap n (succList getPointers heap o ++ wl)
                    (o :: marked) := by
              simp [markLoop, ho]
            have hm2 : markMeasure heap
                (succList getPointers heap o ++ wl) (o :: marked) < n := by
              have e1 : markMeasure heap (o :: wl) marked
                  = wl.length + 1 + markPending heap marked := by
                simp only [markMeasure, List.length_cons]
              cases hlk : heap.lookup o with
              | none =>
                  have hs : succList getPointers heap o = [] := by
                    simp [succList, hlk]
                  have hple := markPending_cons_le heap o marked
                  have e2 : markMeasure heap
                      (succList getPointers heap o ++ wl) (o :: marked)
                      = wl.length + markPending heap (o :: marked) := by
                    simp only [markMeasure, hs, List.nil_append]
                  omega
              | some obj =>
                  have hs : succList getPointers heap o
                      = getPointers obj := by
                    simp [succList, hlk]
                  have hple := markPending_lookup heap o marked obj hlk ho
                  have e2 : markMeasure heap
                      (succList getPointers heap o ++ wl) (o :: marked)
                      = (getPointers obj).length + wl.length
                          + markPending heap (o :: marked) := by
                    simp only [markMeasure, hs, List.length_append]
                  omega
            have hcl2 : ∀ a ∈ o :: marked,
                ∀ b ∈ succList getPointers heap a,
                  b ∈ o :: marked ∨
                    b ∈ succList getPointers heap o ++ wl := by
              intro a ha b hb
              rcases List.mem_cons.mp ha with h1 | h2
              · subst h1
                exact Or.inr (List.mem_append_left _ hb)
              · rcases hcl a h2 b hb with h3 | h4
                · exact Or.inl (List.mem_cons_of_mem _ h3)
                · rcases List.mem_cons.mp h4 with h5 | h6
                  · exact Or.inl (by simp [h5])
                  · exact Or.inr (List.mem_append_right _ h6)
            obtain ⟨r1, r2, r3⟩ := ih _ _ hm2 hcl2
            rw [hstep]
            refine ⟨?_, ?_, r3⟩
            · intro x hx
              exact r1 x (List.mem_cons_of_mem _ hx)
            · intro x hx
              rcases List.mem_cons.mp hx with h1 | h2
              · exact r1 x (by simp [h1])
              · exact r2 x (List.mem_append_right _ h2)

/-- Everything the worklist loop marks satisfies any property that holds of
the initial worklist and marked set and is closed under the traced edges. -/
theorem markLoop_sound (heap : List (Nat × GCObj)) (P : Nat → Prop)
    (hP : ∀ a, P a → ∀ b ∈ succList getPointers heap a, P b) :
    ∀ (fuel : Nat) (wl marked : List Nat),
      (∀ x ∈ wl, P x) → (∀ x ∈ marked, P x) →
      ∀ x ∈ markLoop heap fuel wl marked, P x := by
  intro fuel
  induction fuel with
  | zero =>
      intro wl marked hwl hmk x hx
      exact hmk x (by simpa [markLoop] using hx)
  | succ n ih =>
      intro wl marked hwl hmk x hx
      cases wl with
      | nil => exact hmk x (by simpa [markLoop] using hx)
      | cons o wl =>
          by_cases ho : o ∈ marked
          · rw [show markLoop heap (n + 1) (o :: wl) marked
                = markLoop heap n wl marked by simp [markLoop, ho]] at hx
            exact ih wl marked (fun y hy => hwl y (List.mem_cons_of_mem _ hy))
              hmk x hx
          · rw [show markLoop heap (n + 1) (o :: wl) marked
                = markLoop heap n (succList getPointers heap o ++ wl)
                    (o :: marked) by simp [markLoop, ho]] at hx
            have hPo : P o := hwl o (List.mem_cons_self _ _)
            refine ih _ _ ?_ ?_ x hx
            · intro y hy
              rcases List.mem_append.mp hy with h1 | h2
              · exact hP o hPo y h1
              · exact hwl y (List.mem_cons_of_mem _ h2)
            · intro y hy
              rcases List.mem_cons.mp hy with h1 | h2
              · exact h1 ▸ hPo
              · exact hmk y h2

/-- Characterization of the mark phase: an identifier is marked exactly when
it is reachable from the roots along the edges getPointers traces. -/
theorem mem_mark_iff (heap : List (Nat × GCObj)) (roots : List Nat)
    (x : Nat) :
    x ∈ mark heap roots ↔ ReachVia getPointers heap roots x := by
  constructor
  · intro hx
    refine markLoop_sound heap (ReachVia getPointers heap roots) ?_ _ roots []
      ?_ ?_ x hx
    · intro a ha b hb
      exact ReachVia.step ha hb
    · intro y hy
      exact ReachVia.root hy
    · intro y hy
      simp at hy
  · intro hx
    obtain ⟨r1, r2, r3⟩ := markLoop_run heap (markMeasure heap roots [] + 1)
      roots [] (by omega) (by intro a ha; simp at ha)
    induction hx with
    | root h => exact r2 _ h
    | step ha hb ih2 => exact r3 _ ih2 _ hb

/-- Counting helper: in a registry with pairwise distinct identifiers, an
unmarked registered identifier occurs exactly once among the freed
entries. -/
theorem count_freed_eq_one (heap : List (Nat × GCObj)) (mk : List Nat)
    (o : Nat) (ho : o ∉ mk) (hmem : o ∈ heap.map Prod.fst)
    (hnd : (heap.map Prod.fst).Nodup) :
    ((heap.filter fun e => decide (e.1 ∉ mk)).map Prod.fst).count o = 1 := by
  induction heap with
  | nil => simp at hmem
  | cons e rest ih =>
      simp only [List.map_cons, List.nodup_cons] at hnd
      by_cases he : e.1 = o
      · have hkeep : (decide (e.1 ∉ mk)) = true := by
          simp [he, ho]
        have hnot : o ∉ (rest.filter fun x => decide (x.1 ∉ mk)).map
            Prod.fst := by
          intro hcon
          apply hnd.1
          rw [← he] at hcon
          obtain ⟨x, hx1, hx2⟩ := List.mem_map.mp hcon
          exact List.mem_map.mpr ⟨x, List.mem_of_mem_filter hx1, hx2⟩
        rw [List.filter_cons, if_pos hkeep, List.map_cons, he,
            List.count_cons_self, List.count_eq_zero.mpr hnot]
      · have hmem2 : o ∈ rest.map Prod.fst := by
          rw [List.map_cons] at hmem
          rcases List.mem_cons.mp hmem with h1 | h2
          · exact absurd h1.symm he
          · exact h2
        have ihr := ih hmem2 hnd.2
        rw [List.filter_cons]
        by_cases hkeep : (decide (e.1 ∉ mk)) = true
        · rw [if_pos hkeep, List.map_cons,
              List.count_cons_of_ne (fun hcon => he hcon.symm)]
          exact ihr
        · rw [if_neg hkeep]
          exact ihr

/-- Claim C4, amended (corrected). After a GC cycle, with the successor
edges the collector actually traces — function → captured cells and
instance → object-valued properties only — every registered object
reachable from the roots along those edges is still in the surviving
registry, and every registered object not so reachable is freed exactly
once (one entry in the freed list) and is no longer registered. -/
theorem gc_safety_traced_edges (heap : List (Nat × GCObj))
    (roots : List Nat) (o : Nat)
    (hnd : (heap.map Prod.fst).Nodup) :
    (ReachVia getPointers heap roots o → o ∈ heap.map Prod.fst →
      o ∈ (gcRun heap roots).1.map Prod.fst) ∧
    (¬ ReachVia getPointers heap roots o → o ∈ heap.map Prod.fst →
      ((gcRun heap roots).2.map Prod.fst).count o = 1 ∧
      o ∉ (gcRun heap roots).1.map Prod.fst) := by
  constructor
  · intro hreach hmem
    have hmk : o ∈ mark heap roots := (mem_mark_iff heap roots o).mpr hreach
    obtain ⟨e, he1, he2⟩ := List.mem_map.mp hmem
    refine List.mem_map.mpr ⟨e, ?_, he2⟩
    rw [gcRun, sweepGC_fst]
    exact List.mem_filter.mpr ⟨he1, by simp [he2, hmk]⟩
  · intro hreach hmem
    have hmk : o ∉ mark heap roots := by
      intro hcon
      exact hreach ((mem_mark_iff heap roots o).mp hcon)
    constructor
    · rw [gcRun, sweepGC_snd]
      exact count_freed_eq_one heap (mark heap roots) o hmk hmem hnd
    · intro hcon
      rw [gcRun, sweepGC_fst] at hcon
      obtain ⟨e, he1, he2⟩ := List.mem_map.mp hcon
      have := (List.mem_filter.mp he1).2
      rw [he2] at this
      exact hmk (by simpa using this)

/-- Witness for gc_safety_traced_edges: a single rooted string survives. -/
theorem gc_safety_traced_edges_witness :
    0 ∈ (gcRun [(0, GCObj.strO)] [0]).1.map Prod.fst :=
  (gc_safety_traced_edges [(0, GCObj.strO)] [0] 0 (by simp)).1
    (ReachVia.root (by simp)) (by simp)

/-- Registry with a cell as the only root whose contained value is a
string object. -/
def cellHeap : List (Nat × GCObj) :=
  [(0, GCObj.cellO (some 1)), (1, GCObj.strO)]

/-- Claim C4 as stated is refuted at a concrete registry: the string is
reachable from the rooted cell along the claimed cell → contained-value
edge, yet the collector frees it and drops it from the registry, because
getPointers traverses no edge out of a cell. -/
theorem gc_drops_object_reachable_through_cell :
    ReachVia specPointers cellHeap [0] 1 ∧
    (gcRun cellHeap [0]).1 = [(0, GCObj.cellO (some 1))] ∧
    (gcRun cellHeap [0]).2 = [(1, GCObj.strO)] := by
  refine ⟨ReachVia.step (a := 0) (ReachVia.root (by simp)) ?_, by rfl,
    by rfl⟩
  simp [succList, cellHeap, List.lookup, specPointers]

/-- Registry and allocation counter of struct Traceable (EvaValue.h lines
49-122): objects is the process-wide list of registered objects, each
modelled by an identifier together with its size header field;
bytesAllocated is the byte counter. -/
structure TraceableState where
  objects : List (Nat × Nat)
  bytesAllocated : Nat
deriving Repr, DecidableEq

/-- Traceable::operator new (EvaValue.h lines 63-72): the header size field
receives the allocation size, the object is appended to the registry and
the counter grows by that size. -/
def operatorNew (st : TraceableState) (id size : Nat) : TraceableState :=
  { objects := st.objects ++ [(id, size)],
    bytesAllocated := st.bytesAllocated + size }

/-- Traceable::operator delete (EvaValue.h lines 77-81): the counter
shrinks by the size header field; the registry entry is removed by the
caller — sweep or cleanup — as the source comment notes. -/
def operatorDelete (bytes : Nat) (size : Nat) : Nat := bytes - size

/-- Walk of EvaCollector::sweep (EvaCollector.h lines 76-90) over the
registry: a marked object stays (its mark bit is cleared), an unmarked one
is erased from the registry and deleted, which subtracts its size from the
counter. -/
def sweepWalk (marked : List Nat) :
    List (Nat × Nat) → Nat → List (Nat × Nat) × Nat
  | [], bytes => ([], bytes)
  | e :: rest, bytes =>
    if e.1 ∈ marked then
      let r := sweepWalk marked rest bytes
      (e :: r.1, r.2)
    else
      sweepWalk marked rest (operatorDelete bytes e.2)

/-- Traceable::cleanup (EvaValue.h lines 86-91): delete every registered
object, then clear the registry. -/
def cleanupRegistry (st : TraceableState) : TraceableState :=
  { objects := [],
    bytesAllocated :=
      st.objects.foldl (fun b e => operatorDelete b e.2) st.bytesAllocated }

/-- Operations that touch the registry or the byte counter. -/
inductive RegistryOp where
  | alloc (id size : Nat)
  | sweepOp (marked : List Nat)
  | cleanupOp
deriving Repr, DecidableEq

/-- Application of one registry operation. -/
def applyRegistryOp (st : TraceableState) : RegistryOp → TraceableState
  | .alloc id size => operatorNew st id size
  | .sweepOp marked =>
    let r := sweepWalk marked st.objects st.bytesAllocated
    { objects := r.1, bytesAllocated := r.2 }
  | .cleanupOp => cleanupRegistry st

/-- State reached from the initial empty registry and zero counter by a
sequence of registry operations. -/
def runRegistry (ops : List RegistryOp) : TraceableState :=
  ops.foldl applyRegistryOp { objects := [], bytesAllocated := 0 }

/-- Sweep on a counter that accounts the registry sizes plus a remainder
keeps the survivors and their sizes plus the remainder. -/
theorem sweepWalk_sum (marked : List Nat) :
    ∀ (l : List (Nat × Nat)) (extra : Nat),
      sweepWalk marked l ((l.map Prod.snd).sum + extra)
        = (l.filter fun e => decide (e.1 ∈ marked),
           (((l.filter fun e => decide (e.1 ∈ marked)).map Prod.snd).sum
             + extra)) := by
  intro l
  induction l with
  | nil => intro extra; simp [sweepWalk]
  | cons e rest ih =>
      intro extra
      by_cases he : e.1 ∈ marked
      · have hb : ((e :: rest).map Prod.snd).sum + extra
            = (rest.map Prod.snd).sum + (e.2 + extra) := by
          simp
          omega
        rw [sweepWalk, hb, if_pos he, ih (e.2 + extra)]
        simp [List.filter_cons, he]
        omega
      · have hb : operatorDelete (((e :: rest).map Prod.snd).sum + extra) e.2
            = (rest.map Prod.snd).sum + extra := by
          simp [operatorDelete]
          omega
        rw [sweepWalk, if_neg he, hb, ih extra]
        simp [List.filter_cons, he]

/-- Cleanup deletes exactly the accounted sizes and leaves the remainder of
the counter. -/
theorem cleanup_sum (l : List (Nat × Nat)) (extra : Nat) :
    l.foldl (fun b e => operatorDelete b e.2)
        ((l.map Prod.snd).sum + extra) = extra := by
  induction l generalizing extra with
  | nil => simp
  | cons e rest ih =>
      have hb : operatorDelete (((e :: rest).map Prod.snd).sum + extra) e.2
          = (rest.map Prod.snd).sum + extra := by
        simp [operatorDelete]
        omega
      rw [List.foldl_cons, hb, ih extra]

/-- Claim C10 (confirmed). Between any two registry operations the byte
counter equals the sum of the size fields of the objects currently in the
registry: operator new adds each allocation size while registering the
object, the sweep walk removes an entry from the registry exactly when
operator delete subtracts its size, and cleanup empties both together. -/
theorem bytes_allocated_matches_registry (ops : List RegistryOp) :
    (runRegistry ops).bytesAllocated
      = ((runRegistry ops).objects.map Prod.snd).sum := by
  suffices h : ∀ (ops : List RegistryOp) (st : TraceableState),
      st.bytesAllocated = (st.objects.map Prod.snd).sum →
      (ops.foldl applyRegistryOp st).bytesAllocated
        = ((ops.foldl applyRegistryOp st).objects.map Prod.snd).sum by
    exact h ops _ (by simp [runRegistry])
  intro ops
  induction ops with
  | nil => intro st h; simpa using h
  | cons op rest ih =>
      intro st h
      rw [List.foldl_cons]
      refine ih _ ?_
      cases op with
      | alloc id size =>
          simp [applyRegistryOp, operatorNew, h]
      | sweepOp marked =>
          have hb : st.bytesAllocated = (st.objects.map Prod.snd).sum + 0 := by
            omega
          simp only [applyRegistryOp, hb, sweepWalk_sum marked st.objects 0]
          simp
      | cleanupOp =>
          have hb : st.bytesAllocated = (st.objects.map Prod.snd).sum + 0 := by
            omega
          simp only [applyRegistryOp, cleanupRegistry, hb, cleanup_sum]
          simp
